import Mathlib

/-!
# Verification of the stacmap core against its specification

Shallow embedding of the stacmap repository's core modules
(`stacmap/geojson.py`, `stacmap/stac.py`, `stacmap/explore.py`) and proofs
of the frozen claims about them.

Python values appearing in STAC property bags are modelled by `PVal`;
Python dicts by association lists (`List (String × PVal)`) in insertion
order, whose key uniqueness, guaranteed by Python's dict type, appears as
`Nodup` hypotheses where it matters.  Python numbers are modelled by
rationals.  Fallible Python operations (dict subscript, sequence
indexing) return `Except PyErr`.  `sorted` is modelled by the stable
`List.insertionSort`; `np.unique` by sorting the deduplicated value
list.  The folium/branca widget library is out of scope: map and layer
construction is tracked as a list of attached layer names, and the
colormap resolver `get_cmap` is passed in as an opaque function.
-/

/-- A Python value stored in a STAC property bag: `None`, a string,
a number (Python ints/floats modelled by `ℚ`), or a boolean. -/
inductive PVal where
  | none
  | str (s : String)
  | num (q : ℚ)
  | bool (b : Bool)
deriving DecidableEq, Repr

/-- A Python dict with string keys, as an association list in insertion order. -/
abbrev PDict := List (String × PVal)

/-- `d.get(k)`: the value at key `k`, or `Option.none` when the key is absent. -/
def dget (d : PDict) (k : String) : Option PVal :=
  (d.find? (fun p => p.1 = k)).map (fun p => p.2)

/-- `d.get(k, dflt)`: lookup with a default. -/
def dgetD (d : PDict) (k : String) (dflt : PVal) : PVal :=
  (dget d k).getD dflt

/-- The keys of a dict, in insertion order. -/
def dkeys (d : PDict) : List String := d.map Prod.fst

/-- `d[k] = v`: overwrite in place when the key is present (insertion order
kept), otherwise append the new key at the end, as Python dicts do. -/
def dset (d : PDict) (k : String) (v : PVal) : PDict :=
  if (dkeys d).contains k then
    d.map (fun p => if p.1 = k then (k, v) else p)
  else
    d ++ [(k, v)]

/-- The errors the embedded code can raise. -/
inductive PyErr where
  | valueError (msg : String)
  | keyError (key : String)
  | indexError
  | typeError
deriving DecidableEq, Repr

/-- `d[k]` read: raises `KeyError(k)` when the key is absent. -/
def dgetItem (d : PDict) (k : String) : Except PyErr PVal :=
  match dget d k with
  | some v => .ok v
  | Option.none => .error (.keyError k)

/-- A STAC item dictionary, restricted to the keys the embedded code
reads: `id` and `properties` (read by `STACFeature.__init__`) and
`collection` (read by `explore` as `items[0]["collection"]`).
`Option.none` models absence of the key.  The `geometry`, `bbox` and
`assets` keys are only forwarded to the out-of-scope widget library and
are not modelled. -/
structure ItemDict where
  id : Option String
  collection : Option String
  properties : PDict
deriving DecidableEq, Repr

/-! ## stacmap/stac.py -/

/-- The input shapes accepted by `get_items` (`stacmap/stac.py`).  Typed
pystac objects are represented by the item dictionaries their
`to_dict()` conversions produce: a `pystac.Item` and a plain dict each
carry one record, a list/`ItemCollection` carries its elements, and a
`pystac.Catalog` carries all its descendant items in traversal order. -/
inductive ItemContainer where
  | item (it : ItemDict)
  | itemDict (it : ItemDict)
  | itemList (xs : List ItemDict)
  | itemCollection (xs : List ItemDict)
  | catalog (xs : List ItemDict)
deriving DecidableEq, Repr

/-- `get_items` (`stacmap/stac.py` lines 9-37): flatten any accepted
container to a list of item dictionaries.  `to_dict()` conversion is the
identity here because `ItemDict` already is the dict form. -/
def get_items : ItemContainer → List ItemDict
  | .item it => [it]
  | .itemDict it => [it]
  | .itemList xs => xs
  | .itemCollection xs => xs
  | .catalog xs => xs

/-! ## stacmap/geojson.py -/

/-- `STACFeature` (`stacmap/geojson.py` lines 55-64), restricted to the
fields the claims touch: `self.id = item.get("id", None)` and
`self.properties = item.get("properties", {})`. -/
structure STACFeature where
  id : Option String
  properties : PDict
deriving DecidableEq, Repr

/-- `STACFeature.__init__` for one item dictionary. -/
def mkFeature (it : ItemDict) : STACFeature :=
  { id := it.id, properties := it.properties }

/-- `STACFeature.get_value` (`geojson.py` lines 69-71):
`self.properties.get(prop)` — `None` when the property is absent. -/
def get_value (f : STACFeature) (prop : String) : PVal :=
  (dget f.properties prop).getD .none

/-- `HIDDEN_PROPS` (`geojson.py` line 9). -/
def HIDDEN_PROPS : List String := ["__stacmap_color"]

/-- Executable code-point-lexicographic comparison of character lists;
this is Python's string comparison, used by `sorted`. -/
def lexLe : List Char → List Char → Bool
  | [], _ => true
  | _ :: _, [] => false
  | a :: as, b :: bs =>
    if a.toNat < b.toNat then true
    else if b.toNat < a.toNat then false
    else lexLe as bs

/-- Python's `<=` on strings, as a Bool. -/
def strLeB (a b : String) : Bool := lexLe a.data b.data

/-- Python's `<=` on strings, as a relation for `List.insertionSort`. -/
def StrLe (a b : String) : Prop := strLeB a b = true

instance : DecidableRel StrLe := fun a b => decEq (strLeB a b) true

/-- `":" in x` for a string `x`. -/
def hasColonB (s : String) : Bool := s.data.contains ':'

/-- The sort key `lambda x: [":" in x, x]` of `get_all_props`
(`geojson.py` line 48): colon-namespaced keys after unprefixed ones
(`False < True`), ties broken lexicographically. -/
def extLeB (a b : String) : Bool :=
  if hasColonB a = hasColonB b then strLeB a b else !hasColonB a

/-- `extLeB` as a relation for `List.insertionSort`. -/
def ExtLe (a b : String) : Prop := extLeB a b = true

instance : DecidableRel ExtLe := fun a b => decEq (extLeB a b) true

/-- All features' property keys, concatenated in feature order (the
stream `collections.Counter` is updated with in `get_shared_props`, and
the stream the union set of `get_all_props` is built from). -/
def allKeysJoined (fc : List STACFeature) : List String :=
  (fc.map (fun f => dkeys f.properties)).flatten

/-- The multiplicity the `Counter` of `get_shared_props` assigns to a
key: its count over all features' key streams. -/
def keyCount (fc : List STACFeature) (k : String) : ℕ :=
  (allKeysJoined fc).count k

/-- `STACFeatureCollection.get_shared_props` (`geojson.py` lines 27-36):
keys counted once per feature they occur on; keep those occurring on
every feature and not hidden; plain `sorted`.  The `Counter`'s key set
is the deduplicated key stream; its pre-sort iteration order is
irrelevant after sorting. -/
def get_shared_props (fc : List STACFeature) : List String :=
  List.insertionSort StrLe
    (((allKeysJoined fc).dedup).filter
      (fun k => decide (keyCount fc k = fc.length) && !HIDDEN_PROPS.contains k))

/-- `STACFeatureCollection.get_all_props` (`geojson.py` lines 38-48):
the union of all features' keys, hidden keys discarded, sorted by
`[":" in x, x]`.  The Python `set`'s iteration order is irrelevant
after sorting. -/
def get_all_props (fc : List STACFeature) : List String :=
  List.insertionSort ExtLe
    (((allKeysJoined fc).dedup).filter (fun k => !HIDDEN_PROPS.contains k))

/-- `STACFeatureCollection.get_values` (`geojson.py` lines 50-52): one
`get_value` per feature, in collection order. -/
def get_values (fc : List STACFeature) (prop : String) : List PVal :=
  fc.map (fun f => get_value f prop)

/-! ## numpy fragments used by stacmap/explore.py -/

/-- Whether `np.array(vs).dtype` is a numeric dtype
(`np.issubdtype(values.dtype, np.number)`): true exactly when every
element is a number (an array holding strings, `None`s or booleans has a
string, object or bool dtype). -/
def isNumericArray (vs : List PVal) : Bool :=
  vs.all (fun v => match v with | .num _ => true | _ => false)

/-- A constructor rank making `pvalLe` total.  Python can only compare
values of the same kind; cross-kind comparisons below are only relied on
where the source compares like with like. -/
def pvalRank : PVal → ℕ
  | .none => 0
  | .bool _ => 1
  | .num _ => 2
  | .str _ => 3

/-- The element order `np.unique` sorts by, as a Bool. -/
def pvalLeB (a b : PVal) : Bool :=
  match a, b with
  | .num x, .num y => decide (x ≤ y)
  | .str x, .str y => strLeB x y
  | .bool x, .bool y => !x || y
  | x, y => decide (pvalRank x ≤ pvalRank y)

/-- `pvalLeB` as a relation for `List.insertionSort`. -/
def PvalLe (a b : PVal) : Prop := pvalLeB a b = true

instance : DecidableRel PvalLe := fun a b => decEq (pvalLeB a b) true

/-- `np.unique(vs)`: the distinct values of `vs` in sorted order. -/
def npUnique (vs : List PVal) : List PVal :=
  List.insertionSort PvalLe vs.dedup

/-- `np.where(cats == v)[0][0]`: the first index of `cats` holding `v`,
when one exists. -/
def firstIndexOf (v : PVal) : List PVal → Option ℕ
  | [] => Option.none
  | x :: xs => if x = v then some 0 else (firstIndexOf v xs).map (· + 1)

/-- `values.min()` of a numeric numpy array; `TypeError` stands for the
failures numpy raises on non-numeric or empty data (the source only
reaches this call on a non-empty all-numeric array). -/
def npMin (vs : List PVal) : Except PyErr ℚ :=
  match vs.mapM (fun v => match v with | .num q => some q | _ => Option.none) with
  | some (q :: qs) => .ok (qs.foldl min q)
  | _ => .error .typeError

/-- `values.max()` of a numeric numpy array; see `npMin`. -/
def npMax (vs : List PVal) : Except PyErr ℚ :=
  match vs.mapM (fun v => match v with | .num q => some q | _ => Option.none) with
  | some (q :: qs) => .ok (qs.foldl max q)
  | _ => .error .typeError

/-! ## stacmap/explore.py — color assignment -/

/-- Python's `int()` applied to a float/rational: truncation toward
zero. -/
def pyTrunc (q : ℚ) : ℤ :=
  if 0 ≤ q then ⌊q⌋ else ⌈q⌉

/-- The ramp index `_set_continuous_colors` computes for one value
(`explore.py` lines 386-391): `int(((v - vmin) / (vmax - vmin)) *
(n_colors - 1))` when `vmax != vmin`, else `0`, then clamped by
`max(0, min(color_idx, n_colors - 1))`. -/
def continuousColorIdx (v vmin vmax : ℚ) (n : ℕ) : ℤ :=
  max 0 (min
    (if vmax ≠ vmin then pyTrunc ((v - vmin) / (vmax - vmin) * ((n : ℚ) - 1)) else 0)
    ((n : ℤ) - 1))

/-- Modelled from the spec's formula for the continuous ramp index:
`floor((value - vmin) / (vmax - vmin) * (rampLength - 1))` clamped into
`[0, rampLength - 1]` when `vmax != vmin`, else index `0`.  Kept
separate from `continuousColorIdx` (which embeds the code's truncating
`int()`) so the two can be compared. -/
def specContinuousIdx (v vmin vmax : ℚ) (n : ℕ) : ℤ :=
  if vmax ≠ vmin then
    max 0 (min ⌊(v - vmin) / (vmax - vmin) * ((n : ℚ) - 1)⌋ ((n : ℤ) - 1))
  else 0

/-- The body of the `for feat in features` loop of
`_set_continuous_colors` (`explore.py` lines 385-394) for one feature:
read `feat.properties[prop]` (KeyError when absent, TypeError stands
for the arithmetic failing on a non-number), compute the clamped ramp
index, look the color up in the ramp, and write it to the reserved
`__stacmap_color` property. -/
def colorOneContinuous (prop : String) (colors : List String) (vmin vmax : ℚ)
    (f : STACFeature) : Except PyErr STACFeature :=
  match dgetItem f.properties prop with
  | .error e => .error e
  | .ok (.num q) =>
    match colors.get? (continuousColorIdx q vmin vmax colors.length).toNat with
    | some c => .ok { f with properties := dset f.properties "__stacmap_color" (.str c) }
    | Option.none => .error .indexError
  | .ok _ => .error .typeError

/-- Run a fallible per-element step over a list in order, stopping at
the first error — the effect of a Python `for` loop whose body may
raise. -/
def mapE (g : STACFeature → Except PyErr STACFeature) :
    List STACFeature → Except PyErr (List STACFeature)
  | [] => Except.ok []
  | f :: fs =>
    match g f with
    | .error e => .error e
    | .ok f' =>
      match mapE g fs with
      | .error e => .error e
      | .ok fs' => .ok (f' :: fs')

/-- `_set_continuous_colors` (`explore.py` lines 372-394). -/
def set_continuous_colors (fc : List STACFeature) (prop : String)
    (colors : List String) (vmin vmax : ℚ) : Except PyErr (List STACFeature) :=
  mapE (colorOneContinuous prop colors vmin vmax) fc

/-- The body of the `for feat in features` loop of
`_set_categorical_colors` (`explore.py` lines 405-408) for one feature:
read `feat.properties[prop]` (KeyError when absent), find the value's
index in the sorted distinct categories (`np.where(categories ==
feat_value)[0][0]`, IndexError when absent), look the color up
(`colors[idx]`), and write it to the reserved property. -/
def colorOneCategorical (prop : String) (categories : List PVal)
    (colors : List String) (f : STACFeature) : Except PyErr STACFeature :=
  match dgetItem f.properties prop with
  | .error e => .error e
  | .ok v =>
    match firstIndexOf v categories with
    | Option.none => .error .indexError
    | some j =>
      match colors.get? j with
      | Option.none => .error .indexError
      | some c => .ok { f with properties := dset f.properties "__stacmap_color" (.str c) }

/-- `_set_categorical_colors` (`explore.py` lines 397-408): the
categories are recomputed inside as `np.unique(collection.get_values(prop))`. -/
def set_categorical_colors (fc : List STACFeature) (prop : String)
    (colors : List String) : Except PyErr (List STACFeature) :=
  mapE (colorOneCategorical prop (npUnique (get_values fc prop)) colors) fc

/-- The legend rows `_add_categorical_legend` renders (`explore.py`
lines 514-519): one `<li>` per `(color, label)` pair of
`zip(colors, categories)`, in that order. -/
def categorical_legend_rows (categories : List PVal) (colors : List String) :
    List (String × PVal) :=
  colors.zip categories

/-! ## stacmap/explore.py — footprint fields and auto-id -/

/-- `field.split(":")[0]`: the part of a field name before the first
colon. -/
def fieldExt (s : String) : String :=
  ⟨s.data.takeWhile (fun c => c ≠ ':')⟩

/-- The extension filter predicate of `_add_footprints_to_map`
(`explore.py` lines 291-297): keep unprefixed fields
(`len(split) == 1`) and fields whose colon-prefix is in `extensions`. -/
def extKeep (extensions : List String) (fld : String) : Bool :=
  !hasColonB fld || extensions.contains (fieldExt fld)

/-- The `id` value injected into a feature's properties: `feature.id`
(a string, or `None` when the source item had no `id` key). -/
def idPVal (f : STACFeature) : PVal :=
  match f.id with
  | some s => .str s
  | Option.none => .none

/-- The auto-id injection of `_add_footprints_to_map` (lines 283-288)
for one feature: a feature already carrying an `id` property is left
unchanged; otherwise `feature.id` is prepended as the first property
entry (`{"id": feature.id, **feature.properties}`). -/
def injectId (f : STACFeature) : STACFeature :=
  if (dkeys f.properties).contains "id" then f
  else { f with properties := ("id", idPVal f) :: f.properties }

/-- The `None`-population loop of `_add_footprints_to_map` (lines
300-305) over one feature's property bag: every listed field missing
from the bag is appended with value `None`; present fields are left
alone. -/
def fillMissing (flds : List String) (props : PDict) : PDict :=
  flds.foldl
    (fun ps fld => if (dkeys ps).contains fld then ps else dset ps fld PVal.none)
    props

/-- The field-list and property mutations of `_add_footprints_to_map`
(`explore.py` lines 278-305), in source order: resolve the default
field list (all or shared properties), prepend `"id"` and inject each
missing `id` property first (lines 283-288), filter by extension
namespaces (lines 291-297), then populate fields missing on a feature
with `None` when `shared_fields` is false (lines 300-305).  Returns the
tooltip/popup field list and the mutated features. -/
def add_footprints (fc : List STACFeature) (fields : Option (List String))
    (extensions : Option (List String)) (shared_fields add_id : Bool) :
    List String × List STACFeature :=
  let fields0 := match fields with
    | some fs => fs
    | Option.none => if shared_fields then get_shared_props fc else get_all_props fc
  let fields1 := if add_id then "id" :: fields0 else fields0
  let fc1 := if add_id then fc.map injectId else fc
  let fields2 := match extensions with
    | some exts => fields1.filter (extKeep exts)
    | Option.none => fields1
  let fc2 :=
    if shared_fields = false then
      fc1.map (fun f => { f with properties := fillMissing fields2 f.properties })
    else fc1
  (fields2, fc2)

/-! ## stacmap/explore.py — the explore operation -/

/-- What an `explore` call produces, at the granularity the claims need:
the resolved display name, the working features after all property
mutations, the tooltip/popup field list, the categorical legend rows
added (empty when no categorical legend was added), and the names of the
layers attached to the map. -/
structure ExploreResult where
  name : String
  features : List STACFeature
  fields : List String
  legendRows : List (String × PVal)
  layers : List String
deriving DecidableEq, Repr

/-- `explore` from the resolved display name on (`explore.py` lines
149-240), in source order: color-coding (lines 172-208, with the
categorical legend added right after the categorical colors), the
bbox/intersects conflict check and bounds layer (lines 210-213), and the
footprint layer with its field resolution (lines 215-230).  Map/layer
construction itself is delegation to folium and is tracked as layer
names.  `getCmap` abstracts `stacmap.utils.get_cmap`. -/
def exploreBody (getCmap : String → ℕ → List String) (fc : List STACFeature)
    (nm : String) (bbox : Option (List ℚ)) (intersects : Option PVal)
    (prop : Option String) (cmap : Option String) (vmin vmax : Option ℚ)
    (force_categorical : Bool) (fields : Option (List String))
    (extensions : Option (List String)) (shared_fields add_id legend : Bool) :
    Except PyErr ExploreResult :=
  match (match prop with
         | Option.none => Except.ok (fc, ([] : List (String × PVal)))
         | some p =>
           let values := get_values fc p
           if force_categorical || !isNumericArray values then
             let categories := npUnique values
             let colors := getCmap (cmap.getD "Set1") categories.length
             match set_categorical_colors fc p colors with
             | .error e => .error e
             | .ok fcC =>
               Except.ok (fcC,
                 if legend then categorical_legend_rows categories colors else [])
           else
             match (match vmin with
                    | some v => Except.ok v
                    | Option.none => npMin values) with
             | .error e => .error e
             | .ok vmn =>
               match (match vmax with
                      | some v => Except.ok v
                      | Option.none => npMax values) with
               | .error e => .error e
               | .ok vmx =>
                 match set_continuous_colors fc p
                         (getCmap (cmap.getD "RdBu_r") 255) vmn vmx with
                 | .error e => .error e
                 | .ok fcC => Except.ok (fcC, ([] : List (String × PVal)))) with
  | .error e => .error e
  | .ok (fc1, legendRows) =>
    match (match bbox, intersects with
           | some _, some _ =>
             Except.error (PyErr.valueError "Cannot specify both `bbox` and `intersects`.")
           | Option.none, Option.none => Except.ok ([] : List String)
           | _, _ => Except.ok [nm ++ " - Bounds"]) with
    | .error e => .error e
    | .ok boundsLayers =>
      let resolved := add_footprints fc1 fields extensions shared_fields add_id
      Except.ok { name := nm, features := resolved.2, fields := resolved.1,
                  legendRows := legendRows,
                  layers := boundsLayers ++ [nm ++ " - Footprints"] }

/-- `explore` (`explore.py` lines 16-240).  The first component of the
result is the caller-visible state of the `highlight_kwds` dict object
after the call: the source mutates it in place at line 147
(`highlight_kwds["fillOpacity"] = highlight_kwds.get("fillOpacity",
0.75)`), after the empty check (lines 142-143) and the display-name
resolution (line 146, `items[0]["collection"]` when no name is given)
but before everything else.  `copy.deepcopy` at line 141 is the
identity on values; its aliasing content is modelled by `exploreHeap`
below. -/
def explore (getCmap : String → ℕ → List String) (stac : ItemContainer)
    (name : Option String) (bbox : Option (List ℚ)) (intersects : Option PVal)
    (prop : Option String) (cmap : Option String) (vmin vmax : Option ℚ)
    (force_categorical : Bool) (fields : Option (List String))
    (extensions : Option (List String)) (shared_fields add_id legend : Bool)
    (highlight_kwds : PDict) : PDict × Except PyErr ExploreResult :=
  match get_items stac with
  | [] => (highlight_kwds, .error (.valueError "No STAC items were found."))
  | it0 :: rest =>
    let fc := (it0 :: rest).map mkFeature
    match (match name with
           | some n => Except.ok n
           | Option.none =>
             match it0.collection with
             | some c => Except.ok c
             | Option.none => Except.error (PyErr.keyError "collection")) with
    | .error e => (highlight_kwds, .error e)
    | .ok nm =>
      let hk := dset highlight_kwds "fillOpacity"
                  (dgetD highlight_kwds "fillOpacity" (.num (3 / 4)))
      (hk, exploreBody getCmap fc nm bbox intersects prop cmap vmin vmax
             force_categorical fields extensions shared_fields add_id legend)

/-! ## Object-identity model for the deep copy -/

/-- A store of the Python `ItemDict` objects alive during a call,
addressed by reference.  `readRef` out of range returns a dummy object
(never relied on for valid references). -/
structure PyHeap where
  objs : List ItemDict
deriving DecidableEq, Repr

/-- Dereference. -/
def readRef (h : PyHeap) (r : ℕ) : ItemDict :=
  h.objs.getD r { id := Option.none, collection := Option.none, properties := [] }

/-- In-place mutation of the object behind a reference. -/
def writeRef (h : PyHeap) (r : ℕ) (v : ItemDict) : PyHeap :=
  { objs := h.objs.set r v }

/-- `copy.deepcopy` of a list of references (`explore.py` line 141):
allocates a fresh object per input reference, holding an equal value,
and returns the fresh references. -/
def deepcopyRefs (h : PyHeap) (rs : List ℕ) : PyHeap × List ℕ :=
  ({ objs := h.objs ++ rs.map (readRef h) },
   List.range' h.objs.length rs.length 1)

/-- The mutation shape of an `explore` call on the record store:
deep-copy the caller's records, then apply per-record in-place writes to
the copies only.  `touch` ranges over everything the call writes into a
record's property bag — the reserved `__stacmap_color` color (lines
388-394 and 405-408), the injected `id` (lines 285-288) and the `None`
placeholders for missing fields (lines 300-305). -/
def exploreHeap (h : PyHeap) (itemRefs : List ℕ) (touch : ItemDict → ItemDict) :
    PyHeap :=
  let copied := deepcopyRefs h itemRefs
  copied.2.foldl (fun s r => writeRef s r (touch (readRef s r))) copied.1

/-! ## Concrete fixtures for witnesses and counterexamples -/

/-- A stand-in colormap resolver for concrete instantiations: `n` copies
of one hex color.  (The real `get_cmap` delegates to the out-of-scope
matplotlib/branca backends; only the length of its result matters to the
embedded code.) -/
def cmapW (_ : String) (n : ℕ) : List String :=
  List.replicate n "#e41a1c"

/-- Three features whose `"p"` property carries the values
`["a", "a", "b"]` — the categorical example of the spec. -/
def c2fcW : List STACFeature :=
  [{ id := some "i1", properties := [("p", PVal.str "a")] },
   { id := some "i2", properties := [("p", PVal.str "a")] },
   { id := some "i3", properties := [("p", PVal.str "b")] }]

/-- One item with a single shared property and no `id` property, used by
the error-path instantiations: its `properties` lack `"not_a_real_prop"`. -/
def c4itemW : ItemDict :=
  { id := some "20170831_172754_101c", collection := some "planet-disaster-data",
    properties := [("eo:cloud_cover", PVal.num 10)] }

/-- An item whose dict has no `collection` key. -/
def c10itemW : ItemDict :=
  { id := some "i1", collection := Option.none,
    properties := [("gsd", PVal.str "3")] }

/-- Two features sharing `"gsd"`, only one carrying `"x"`. -/
def c5fcW : List STACFeature :=
  [{ id := some "i1", properties := [("gsd", PVal.str "3"), ("x", PVal.str "1")] },
   { id := some "i2", properties := [("gsd", PVal.str "4")] }]

/-- One feature carrying both an extension-namespaced key and `"id"`:
the ordering example of the spec. -/
def c6fcW : List STACFeature :=
  [{ id := some "i1",
     properties := [("eo:cloud_cover", PVal.num 10), ("id", PVal.str "x")] }]

/-- Two features for the auto-id claim: the first lacks an `"id"`
property, the second already carries `id = "MY CUSTOM ID"`. -/
def c7fcW : List STACFeature :=
  [{ id := some "auto-id-1", properties := [("gsd", PVal.str "3")] },
   { id := some "custom", properties := [("id", PVal.str "MY CUSTOM ID"),
                                         ("gsd", PVal.str "4")] }]

/-! ## Helper lemmas: dicts -/

theorem dget_cons_pos {p : String × PVal} {d : PDict} {k : String} (h : p.1 = k) :
    dget (p :: d) k = some p.2 := by
  unfold dget
  rw [List.find?_cons_of_pos _ (by simpa using h)]
  rfl

theorem dget_cons_neg {p : String × PVal} {d : PDict} {k : String} (h : ¬p.1 = k) :
    dget (p :: d) k = dget d k := by
  unfold dget
  rw [List.find?_cons_of_neg _ (by simpa using h)]

theorem dget_eq_none_iff {d : PDict} {k : String} :
    dget d k = Option.none ↔ ∀ p ∈ d, p.1 ≠ k := by
  unfold dget
  rw [Option.map_eq_none', List.find?_eq_none]
  simp

theorem mem_dkeys_iff_isSome {d : PDict} {k : String} :
    k ∈ dkeys d ↔ (dget d k).isSome = true := by
  induction d with
  | nil => simp [dkeys, dget]
  | cons p ps ih =>
    have hd : dkeys (p :: ps) = p.1 :: dkeys ps := rfl
    rw [hd, List.mem_cons]
    by_cases h : p.1 = k
    · rw [dget_cons_pos h]
      simp [← h]
    · rw [dget_cons_neg h, ← ih]
      constructor
      · rintro (rfl | hm)
        · exact absurd rfl h
        · exact hm
      · exact Or.inr

theorem dget_dset_self (d : PDict) (k : String) (v : PVal) :
    dget (dset d k v) k = some v := by
  unfold dset
  by_cases h : (dkeys d).contains k
  · rw [if_pos h]
    have hk : k ∈ dkeys d := by simpa using h
    clear h
    induction d with
    | nil => simp [dkeys] at hk
    | cons p ps ih =>
      rw [List.map_cons]
      by_cases hp : p.1 = k
      · rw [if_pos hp]
        exact dget_cons_pos rfl
      · rw [if_neg hp]
        have hk' : k ∈ dkeys ps := by
          have hcons : dkeys (p :: ps) = p.1 :: dkeys ps := rfl
          rcases List.mem_cons.mp (hcons ▸ hk) with h1 | h2
          · exact absurd h1.symm hp
          · exact h2
        rw [dget_cons_neg hp]
        exact ih hk'
  · rw [if_neg h]
    have hk : k ∉ dkeys d := by simpa using h
    have hall : ∀ p ∈ d, ¬p.1 = k := fun p hp hpk =>
      hk (hpk ▸ List.mem_map_of_mem Prod.fst hp)
    unfold dget
    rw [List.find?_append, List.find?_eq_none.mpr (by simpa using hall),
        List.find?_cons_of_pos _ (by simp), Option.none_or]
    rfl

theorem dget_dset_ne (d : PDict) (k k' : String) (v : PVal) (hne : k' ≠ k) :
    dget (dset d k v) k' = dget d k' := by
  have hkk : ¬k = k' := fun hh => hne hh.symm
  unfold dset
  by_cases h : (dkeys d).contains k
  · rw [if_pos h]
    clear h
    induction d with
    | nil => rfl
    | cons p ps ih =>
      rw [List.map_cons]
      by_cases hp : p.1 = k
      · rw [if_pos hp, dget_cons_neg (show ¬(k, v).1 = k' from hkk),
            dget_cons_neg (fun hh => hkk (hp ▸ hh))]
        exact ih
      · rw [if_neg hp]
        by_cases hq : p.1 = k'
        · rw [dget_cons_pos hq, dget_cons_pos hq]
        · rw [dget_cons_neg hq, dget_cons_neg hq]
          exact ih
  · rw [if_neg h]
    unfold dget
    rw [List.find?_append]
    have hfind : List.find? (fun p => decide (p.1 = k')) [(k, v)] = Option.none := by
      rw [List.find?_cons_of_neg _ (by simpa using hkk), List.find?_nil]
    rw [hfind, Option.or_none]

theorem dset_of_not_mem {d : PDict} {k : String} (v : PVal)
    (h : ∀ p ∈ d, p.1 ≠ k) : dset d k v = d ++ [(k, v)] := by
  unfold dset
  rw [if_neg]
  intro hc
  have hk : k ∈ List.map Prod.fst d := by simpa [dkeys] using hc
  obtain ⟨p, hp, hpk⟩ := List.mem_map.mp hk
  exact h p hp hpk

theorem dset_append_single {d : PDict} {k : String} (x v : PVal)
    (h : ∀ p ∈ d, p.1 ≠ k) : dset (d ++ [(k, x)]) k v = d ++ [(k, v)] := by
  unfold dset
  rw [if_pos (by simp [dkeys])]
  rw [List.map_append]
  congr 1
  · conv_rhs => rw [show d = d.map id from (List.map_id d).symm]
    exact List.map_congr_left (fun p hp => by simp [h p hp])
  · simp

theorem dget_append_single {d : PDict} {k : String} (x : PVal)
    (h : ∀ p ∈ d, p.1 ≠ k) : dget (d ++ [(k, x)]) k = some x := by
  unfold dget
  rw [List.find?_append, List.find?_eq_none.mpr (by simpa using h),
      List.find?_cons_of_pos _ (by simp), Option.none_or]
  rfl

/-! ## Helper lemmas: mapE -/

theorem mapE_ok_cases {g : STACFeature → Except PyErr STACFeature} {f : STACFeature}
    {fs out : List STACFeature} (h : mapE g (f :: fs) = .ok out) :
    ∃ f' fs', g f = .ok f' ∧ mapE g fs = .ok fs' ∧ out = f' :: fs' := by
  cases hf : g f with
  | error e => simp [mapE, hf, Except.bind] at h
  | ok f' =>
    cases hfs : mapE g fs with
    | error e => simp [mapE, hf, hfs, Except.bind] at h
    | ok fs' =>
      refine ⟨f', fs', rfl, rfl, ?_⟩
      simp [mapE, hf, hfs, Except.bind] at h
      exact h.symm

theorem mapE_ok_spec {g : STACFeature → Except PyErr STACFeature} :
    ∀ {fs fs' : List STACFeature}, mapE g fs = .ok fs' →
      fs'.length = fs.length ∧
      ∀ i (hi : i < fs.length) (hi' : i < fs'.length),
        g (fs.get ⟨i, hi⟩) = .ok (fs'.get ⟨i, hi'⟩) := by
  intro fs
  induction fs with
  | nil =>
    intro fs' h
    have : fs' = [] := by simpa [mapE] using h.symm
    subst this
    exact ⟨rfl, fun i hi _ => absurd hi (by simp)⟩
  | cons f fs ih =>
    intro out h
    obtain ⟨f', fs', hf, hfs, rfl⟩ := mapE_ok_cases h
    obtain ⟨hlen, hget⟩ := ih hfs
    refine ⟨by simp [hlen], ?_⟩
    intro i hi hi'
    match i with
    | 0 => simpa using hf
    | Nat.succ j =>
      have hj : j < fs.length := by simpa using hi
      have hj' : j < fs'.length := by simpa using hi'
      simpa using hget j hj hj'

theorem mapE_exists_ok {g : STACFeature → Except PyErr STACFeature} :
    ∀ {fs : List STACFeature}, (∀ f ∈ fs, ∃ f', g f = .ok f') →
      ∃ fs', mapE g fs = .ok fs' := by
  intro fs
  induction fs with
  | nil => exact fun _ => ⟨[], rfl⟩
  | cons f fs ih =>
    intro h
    obtain ⟨f', hf⟩ := h f (by simp)
    obtain ⟨fs', hfs⟩ := ih (fun x hx => h x (by simp [hx]))
    exact ⟨f' :: fs', by simp [mapE, hf, hfs, Except.bind]⟩

/-! ## Helper lemmas: the continuous ramp index -/

theorem pyTrunc_clamp_eq_floor_clamp (x : ℚ) (m : ℤ) (hm : 0 ≤ m) :
    max 0 (min (pyTrunc x) m) = max 0 (min ⌊x⌋ m) := by
  unfold pyTrunc
  by_cases h : 0 ≤ x
  · rw [if_pos h]
  · rw [if_neg h]
    push_neg at h
    have h1 : ⌈x⌉ ≤ 0 := Int.ceil_le.mpr (by exact_mod_cast h.le)
    have h2 : ⌊x⌋ ≤ 0 := Int.floor_nonpos h.le
    omega

/-! ## Helper lemmas: per-feature continuous coloring -/

theorem colorOneContinuous_eq_ok {prop : String} {colors : List String}
    {vmin vmax : ℚ} {f : STACFeature} {q : ℚ} {c : String}
    (hq : dget f.properties prop = some (.num q))
    (hc : colors.get? (continuousColorIdx q vmin vmax colors.length).toNat = some c) :
    colorOneContinuous prop colors vmin vmax f =
      .ok { f with properties := dset f.properties "__stacmap_color" (.str c) } := by
  simp only [colorOneContinuous, dgetItem, hq, hc]

theorem colorOneContinuous_eq_err {prop : String} {colors : List String}
    {vmin vmax : ℚ} {f : STACFeature} {q : ℚ}
    (hq : dget f.properties prop = some (.num q))
    (hc : colors.get? (continuousColorIdx q vmin vmax colors.length).toNat
            = Option.none) :
    colorOneContinuous prop colors vmin vmax f = .error .indexError := by
  simp only [colorOneContinuous, dgetItem, hq, hc]

/-! ## C1: continuous color index -/

/-- **C1.**  For the continuous color assignment: for every value, `vmin`,
`vmax` and ramp length `n ≥ 1`, the ramp index the code computes
(`continuousColorIdx`, truncating `int()` then clamping) equals the
spec's formula `floor((v - vmin) / (vmax - vmin) * (n - 1))` clamped
into `[0, n-1]` when `vmax ≠ vmin`, and equals `0` for every value when
`vmax = vmin`; a value equal to `vmin` maps to index `0` and a value
equal to `vmax` maps to the last index; and `_set_continuous_colors`
assigns each feature the ramp color at exactly this index. -/
theorem c1_continuous_ramp_index (v vmin vmax : ℚ) (n : ℕ) (hn : 1 ≤ n) :
    continuousColorIdx v vmin vmax n = specContinuousIdx v vmin vmax n
    ∧ (vmax = vmin → continuousColorIdx v vmin vmax n = 0)
    ∧ (vmax ≠ vmin → continuousColorIdx vmin vmin vmax n = 0
        ∧ continuousColorIdx vmax vmin vmax n = (n : ℤ) - 1)
    ∧ (∀ (prop : String) (colors : List String) (fc fcOut : List STACFeature),
        colors.length = n →
        set_continuous_colors fc prop colors vmin vmax = .ok fcOut →
        ∀ i (hi : i < fc.length) (hi' : i < fcOut.length) (q : ℚ),
          dget (fc.get ⟨i, hi⟩).properties prop = some (.num q) →
          dget (fcOut.get ⟨i, hi'⟩).properties "__stacmap_color"
            = (colors.get? (continuousColorIdx q vmin vmax n).toNat).map PVal.str) := by
  have hn' : (1 : ℤ) ≤ (n : ℤ) := by exact_mod_cast hn
  refine ⟨?_, ?_, ?_, ?_⟩
  · unfold continuousColorIdx specContinuousIdx
    by_cases h : vmax = vmin
    · rw [if_neg (by simp [h]), if_neg (by simp [h])]
      omega
    · rw [if_pos h, if_pos h]
      exact pyTrunc_clamp_eq_floor_clamp _ _ (by omega)
  · intro h
    unfold continuousColorIdx
    rw [if_neg (by simp [h])]
    omega
  · intro h
    constructor
    · have e0 : (vmin - vmin) / (vmax - vmin) * ((n : ℚ) - 1) = 0 := by
        rw [sub_self, zero_div, zero_mul]
      unfold continuousColorIdx
      rw [if_pos h, e0]
      unfold pyTrunc
      rw [if_pos le_rfl, Int.floor_zero]
      omega
    · have e1 : (vmax - vmin) / (vmax - vmin) * ((n : ℚ) - 1) = (n : ℚ) - 1 := by
        rw [div_self (sub_ne_zero.mpr h), one_mul]
      have hcast : ((n : ℚ) - 1) = (((n : ℤ) - 1 : ℤ) : ℚ) := by push_cast; ring
      have hnn : (0 : ℚ) ≤ (n : ℚ) - 1 := by
        have : (1 : ℚ) ≤ (n : ℚ) := by exact_mod_cast hn
        linarith
      unfold continuousColorIdx
      rw [if_pos h, e1]
      unfold pyTrunc
      rw [if_pos hnn, hcast, Int.floor_intCast]
      omega
  · intro prop colors fc fcOut hlen hok i hi hi' q hq
    subst hlen
    have hg := (mapE_ok_spec hok).2 i hi hi'
    cases hcol : colors.get? (continuousColorIdx q vmin vmax colors.length).toNat with
    | none =>
      rw [colorOneContinuous_eq_err hq hcol] at hg
      exact absurd hg (by simp)
    | some c =>
      rw [colorOneContinuous_eq_ok hq hcol] at hg
      have hout := (Except.ok.inj hg).symm
      rw [hout]
      exact dget_dset_self _ _ _

/-- Witness for C1 at `v = 12`, `vmin = 4`, `vmax = 20` and a 255-color
ramp. -/
theorem c1_continuous_ramp_index_witness :
    (1 : ℕ) ≤ 255 ∧
    (continuousColorIdx 12 4 20 255 = specContinuousIdx 12 4 20 255
     ∧ ((20 : ℚ) = 4 → continuousColorIdx 12 4 20 255 = 0)
     ∧ ((20 : ℚ) ≠ 4 → continuousColorIdx 4 4 20 255 = 0
         ∧ continuousColorIdx 20 4 20 255 = (255 : ℤ) - 1)
     ∧ (∀ (prop : String) (colors : List String) (fc fcOut : List STACFeature),
         colors.length = 255 →
         set_continuous_colors fc prop colors 4 20 = .ok fcOut →
         ∀ i (hi : i < fc.length) (hi' : i < fcOut.length) (q : ℚ),
           dget (fc.get ⟨i, hi⟩).properties prop = some (.num q) →
           dget (fcOut.get ⟨i, hi'⟩).properties "__stacmap_color"
             = (colors.get? (continuousColorIdx q 4 20 255).toNat).map PVal.str)) :=
  ⟨by norm_num, c1_continuous_ramp_index 12 4 20 255 (by norm_num)⟩

/-! ## Helper lemmas: np.unique and categorical coloring -/

theorem npUnique_nodup (vs : List PVal) : (npUnique vs).Nodup :=
  (List.perm_insertionSort PvalLe vs.dedup).symm.nodup (List.nodup_dedup vs)

theorem mem_npUnique {v : PVal} {vs : List PVal} : v ∈ npUnique vs ↔ v ∈ vs := by
  unfold npUnique
  rw [(List.perm_insertionSort PvalLe vs.dedup).mem_iff, List.mem_dedup]

theorem firstIndexOf_of_get {cats : List PVal} (hnd : cats.Nodup) :
    ∀ (j : ℕ) (hj : j < cats.length),
      firstIndexOf (cats.get ⟨j, hj⟩) cats = some j := by
  induction cats with
  | nil => intro j hj; simp at hj
  | cons x xs ih =>
    intro j hj
    obtain ⟨hx, hxs⟩ := List.nodup_cons.mp hnd
    match j with
    | 0 => simp [firstIndexOf]
    | Nat.succ m =>
      have hm : m < xs.length := by simpa using hj
      have hne : ¬x = xs.get ⟨m, hm⟩ :=
        fun hh => hx (hh ▸ List.get_mem xs m hm)
      show firstIndexOf ((x :: xs).get ⟨m + 1, hj⟩) (x :: xs) = some (m + 1)
      have hget : (x :: xs).get ⟨m + 1, hj⟩ = xs.get ⟨m, hm⟩ := rfl
      rw [hget]
      unfold firstIndexOf
      rw [if_neg hne, ih hxs m hm]
      rfl

theorem firstIndexOf_isSome_of_mem {v : PVal} {cats : List PVal} (h : v ∈ cats) :
    ∃ j, firstIndexOf v cats = some j ∧ j < cats.length := by
  induction cats with
  | nil => simp at h
  | cons x xs ih =>
    by_cases hx : x = v
    · exact ⟨0, by simp [firstIndexOf, hx], by simp⟩
    · have hv : v ∈ xs := by
        rcases List.mem_cons.mp h with h1 | h2
        · exact absurd h1.symm hx
        · exact h2
      obtain ⟨j, hj, hlt⟩ := ih hv
      refine ⟨j + 1, by simp [firstIndexOf, hx, hj], by simpa using hlt⟩

theorem colorOneCategorical_eq_ok {prop : String} {cats : List PVal}
    {colors : List String} {f : STACFeature} {v : PVal} {j : ℕ} {c : String}
    (hv : dget f.properties prop = some v)
    (hj : firstIndexOf v cats = some j)
    (hc : colors.get? j = some c) :
    colorOneCategorical prop cats colors f =
      .ok { f with properties := dset f.properties "__stacmap_color" (.str c) } := by
  simp only [colorOneCategorical, dgetItem, hv, hj, hc]

theorem colorOneCategorical_eq_keyError {prop : String} {cats : List PVal}
    {colors : List String} {f : STACFeature}
    (hv : dget f.properties prop = Option.none) :
    colorOneCategorical prop cats colors f = .error (.keyError prop) := by
  simp only [colorOneCategorical, dgetItem, hv]

/-! ## C2: categorical colors and legend -/

/-- **C2.**  For the categorical color assignment: the distinct values
are enumerated in the deterministic sorted order `npUnique`; against a
palette with one color per distinct value, `_set_categorical_colors`
succeeds, preserves the feature count, and assigns the feature bearing
the `j`-th distinct value the `j`-th palette color; and the legend rows
are exactly the (color, label) pairs in that same order, one row per
distinct value. -/
theorem c2_categorical_colors (fc : List STACFeature) (p : String)
    (colors : List String)
    (hlen : colors.length = (npUnique (get_values fc p)).length)
    (hkeys : ∀ f ∈ fc, (dget f.properties p).isSome = true) :
    ∃ fcOut, set_categorical_colors fc p colors = .ok fcOut
      ∧ fcOut.length = fc.length
      ∧ (∀ i (hi : i < fc.length) (hi' : i < fcOut.length)
           (j : ℕ) (hj : j < (npUnique (get_values fc p)).length)
           (hjc : j < colors.length),
          dget (fc.get ⟨i, hi⟩).properties p
              = some ((npUnique (get_values fc p)).get ⟨j, hj⟩) →
          dget (fcOut.get ⟨i, hi'⟩).properties "__stacmap_color"
              = some (.str (colors.get ⟨j, hjc⟩)))
      ∧ (categorical_legend_rows (npUnique (get_values fc p)) colors).length
          = (npUnique (get_values fc p)).length
      ∧ (∀ (j : ℕ)
           (hjr : j < (categorical_legend_rows (npUnique (get_values fc p)) colors).length)
           (hjc : j < colors.length) (hj : j < (npUnique (get_values fc p)).length),
          (categorical_legend_rows (npUnique (get_values fc p)) colors).get ⟨j, hjr⟩
            = (colors.get ⟨j, hjc⟩, (npUnique (get_values fc p)).get ⟨j, hj⟩)) := by
  have hex : ∀ f ∈ fc, ∃ f',
      colorOneCategorical p (npUnique (get_values fc p)) colors f = .ok f' := by
    intro f hf
    obtain ⟨v, hv⟩ := Option.isSome_iff_exists.mp (hkeys f hf)
    have hval : get_value f p = v := by simp [get_value, hv]
    have hmem : v ∈ npUnique (get_values fc p) := by
      rw [mem_npUnique]
      exact hval ▸ (List.mem_map_of_mem (fun f => get_value f p) hf)
    obtain ⟨j, hj, hjlt⟩ := firstIndexOf_isSome_of_mem hmem
    have hjc : j < colors.length := by omega
    exact ⟨_, colorOneCategorical_eq_ok hv hj (List.get?_eq_get hjc)⟩
  obtain ⟨fcOut, hok⟩ := mapE_exists_ok hex
  obtain ⟨hlength, hget⟩ := mapE_ok_spec hok
  refine ⟨fcOut, hok, hlength, ?_, ?_, ?_⟩
  · intro i hi hi' j hj hjc hq
    have hfi := firstIndexOf_of_get (npUnique_nodup (get_values fc p)) j hj
    have hone := colorOneCategorical_eq_ok hq hfi (List.get?_eq_get hjc)
    have hg := hget i hi hi'
    rw [hone] at hg
    have hout := (Except.ok.inj hg).symm
    rw [hout]
    exact dget_dset_self _ _ _
  · simp [categorical_legend_rows, hlen]
  · intro j hjr hjc hj
    simp [categorical_legend_rows, List.getElem_zip]

/-- Witness for C2 at the spec's example: values `["a", "a", "b"]`
against a two-color palette. -/
theorem c2_categorical_colors_witness :
    ((["#C0", "#C1"] : List String).length = (npUnique (get_values c2fcW "p")).length
     ∧ ∀ f ∈ c2fcW, (dget f.properties "p").isSome = true)
    ∧ (∃ fcOut, set_categorical_colors c2fcW "p" ["#C0", "#C1"] = .ok fcOut
        ∧ fcOut.length = c2fcW.length
        ∧ (∀ i (hi : i < c2fcW.length) (hi' : i < fcOut.length)
             (j : ℕ) (hj : j < (npUnique (get_values c2fcW "p")).length)
             (hjc : j < (["#C0", "#C1"] : List String).length),
            dget (c2fcW.get ⟨i, hi⟩).properties "p"
                = some ((npUnique (get_values c2fcW "p")).get ⟨j, hj⟩) →
            dget (fcOut.get ⟨i, hi'⟩).properties "__stacmap_color"
                = some (.str ((["#C0", "#C1"] : List String).get ⟨j, hjc⟩)))
        ∧ (categorical_legend_rows (npUnique (get_values c2fcW "p"))
             ["#C0", "#C1"]).length
            = (npUnique (get_values c2fcW "p")).length
        ∧ (∀ (j : ℕ)
             (hjr : j < (categorical_legend_rows (npUnique (get_values c2fcW "p"))
                          ["#C0", "#C1"]).length)
             (hjc : j < (["#C0", "#C1"] : List String).length)
             (hj : j < (npUnique (get_values c2fcW "p")).length),
            (categorical_legend_rows (npUnique (get_values c2fcW "p"))
               ["#C0", "#C1"]).get ⟨j, hjr⟩
              = ((["#C0", "#C1"] : List String).get ⟨j, hjc⟩,
                 (npUnique (get_values c2fcW "p")).get ⟨j, hj⟩))) :=
  ⟨⟨by decide, by decide⟩,
   c2_categorical_colors c2fcW "p" ["#C0", "#C1"] (by decide) (by decide)⟩

/-! ## Helper lemmas: property sets -/

theorem mem_get_shared_props_iff {fc : List STACFeature} {k : String} :
    k ∈ get_shared_props fc ↔
      k ∈ allKeysJoined fc ∧ keyCount fc k = fc.length ∧ k ∉ HIDDEN_PROPS := by
  unfold get_shared_props
  rw [(List.perm_insertionSort StrLe _).mem_iff, List.mem_filter, List.mem_dedup]
  simp [and_assoc]

theorem mem_get_all_props_iff {fc : List STACFeature} {k : String} :
    k ∈ get_all_props fc ↔ k ∈ allKeysJoined fc ∧ k ∉ HIDDEN_PROPS := by
  unfold get_all_props
  rw [(List.perm_insertionSort ExtLe _).mem_iff, List.mem_filter, List.mem_dedup]
  simp

theorem keyCount_cons (f : STACFeature) (fs : List STACFeature) (k : String) :
    keyCount (f :: fs) k = (dkeys f.properties).count k + keyCount fs k := by
  simp [keyCount, allKeysJoined, List.count_append]

theorem keyCount_le_length :
    ∀ (fc : List STACFeature), (∀ f ∈ fc, (dkeys f.properties).Nodup) →
      ∀ k, keyCount fc k ≤ fc.length := by
  intro fc
  induction fc with
  | nil => intro _ k; simp [keyCount, allKeysJoined]
  | cons f fs ih =>
    intro hnd k
    rw [keyCount_cons]
    have h1 : (dkeys f.properties).count k ≤ 1 :=
      List.nodup_iff_count_le_one.mp (hnd f (by simp)) k
    have h2 := ih (fun g hg => hnd g (by simp [hg])) k
    simp only [List.length_cons]
    omega

theorem keyCount_lt_length :
    ∀ (fc : List STACFeature), (∀ f ∈ fc, (dkeys f.properties).Nodup) →
      ∀ k, (∃ f ∈ fc, k ∉ dkeys f.properties) →
        keyCount fc k < fc.length := by
  intro fc
  induction fc with
  | nil => intro _ k habs; simp at habs
  | cons f fs ih =>
    intro hnd k habs
    rw [keyCount_cons]
    simp only [List.length_cons]
    obtain ⟨g, hg, hgk⟩ := habs
    rcases List.mem_cons.mp hg with rfl | hgs
    · have h0 : (dkeys g.properties).count k = 0 :=
        List.count_eq_zero_of_not_mem hgk
      have h2 := keyCount_le_length fs (fun x hx => hnd x (by simp [hx])) k
      omega
    · have h1 : (dkeys f.properties).count k ≤ 1 :=
        List.nodup_iff_count_le_one.mp (hnd f (by simp)) k
      have h2 := ih (fun x hx => hnd x (by simp [hx])) k ⟨g, hgs, hgk⟩
      omega

/-! ## C5: shared properties are a subset of all properties -/

/-- **C5.**  For every feature collection, `get_shared_props` is a
subset of `get_all_props`; a property key present on some feature but
absent from at least one (ordinary, non-reserved) feature key appears in
`get_all_props` but not in `get_shared_props`; and the reserved
`__stacmap_color` key appears in neither.  (Per-feature key lists are
`Nodup`, as Python dict keys are.) -/
theorem c5_shared_subset_all (fc : List STACFeature) :
    (∀ k, k ∈ get_shared_props fc → k ∈ get_all_props fc)
    ∧ (∀ k, (∀ f ∈ fc, (dkeys f.properties).Nodup) →
        (∃ f ∈ fc, k ∈ dkeys f.properties) →
        (∃ f ∈ fc, k ∉ dkeys f.properties) →
        k ∉ HIDDEN_PROPS →
        k ∈ get_all_props fc ∧ k ∉ get_shared_props fc)
    ∧ "__stacmap_color" ∉ get_shared_props fc
    ∧ "__stacmap_color" ∉ get_all_props fc := by
  refine ⟨?_, ?_, ?_, ?_⟩
  · intro k hk
    obtain ⟨hj, _, hh⟩ := mem_get_shared_props_iff.mp hk
    exact mem_get_all_props_iff.mpr ⟨hj, hh⟩
  · intro k hnd hpres habs hh
    constructor
    · obtain ⟨f, hf, hkf⟩ := hpres
      have hjoin : k ∈ allKeysJoined fc := by
        unfold allKeysJoined
        rw [List.mem_flatten]
        exact ⟨dkeys f.properties, List.mem_map_of_mem _ hf, hkf⟩
      exact mem_get_all_props_iff.mpr ⟨hjoin, hh⟩
    · intro hk
      obtain ⟨_, hcount, _⟩ := mem_get_shared_props_iff.mp hk
      exact absurd hcount (Nat.ne_of_lt (keyCount_lt_length fc hnd k habs))
  · intro hk
    obtain ⟨_, _, hh⟩ := mem_get_shared_props_iff.mp hk
    exact hh (by simp [HIDDEN_PROPS])
  · intro hk
    obtain ⟨_, hh⟩ := mem_get_all_props_iff.mp hk
    exact hh (by simp [HIDDEN_PROPS])

/-- Witness for C5 on a two-feature collection where only the first
feature carries `"x"`. -/
theorem c5_shared_subset_all_witness :
    ((∀ f ∈ c5fcW, (dkeys f.properties).Nodup)
     ∧ (∃ f ∈ c5fcW, "x" ∈ dkeys f.properties)
     ∧ (∃ f ∈ c5fcW, "x" ∉ dkeys f.properties)
     ∧ "x" ∉ HIDDEN_PROPS)
    ∧ ("x" ∈ get_all_props c5fcW ∧ "x" ∉ get_shared_props c5fcW) :=
  ⟨⟨by decide, by decide, by decide, by decide⟩,
   (c5_shared_subset_all c5fcW).2.1 "x" (by decide) (by decide) (by decide)
     (by decide)⟩

/-! ## Helper lemmas: the two sort orders -/

theorem lexLe_cons_elim {x y : Char} {xs ys : List Char}
    (h : lexLe (x :: xs) (y :: ys) = true) :
    x.toNat < y.toNat ∨ (x.toNat = y.toNat ∧ lexLe xs ys = true) := by
  unfold lexLe at h
  by_cases h1 : x.toNat < y.toNat
  · exact Or.inl h1
  · rw [if_neg h1] at h
    by_cases h2 : y.toNat < x.toNat
    · rw [if_pos h2] at h
      exact absurd h (by simp)
    · rw [if_neg h2] at h
      exact Or.inr ⟨by omega, h⟩

theorem lexLe_cons_intro_lt {x y : Char} (xs ys : List Char)
    (h : x.toNat < y.toNat) : lexLe (x :: xs) (y :: ys) = true := by
  unfold lexLe
  rw [if_pos h]

theorem lexLe_cons_intro_eq {x y : Char} {xs ys : List Char}
    (h : x.toNat = y.toNat) (h2 : lexLe xs ys = true) :
    lexLe (x :: xs) (y :: ys) = true := by
  unfold lexLe
  rw [if_neg (by omega), if_neg (by omega)]
  exact h2

theorem lexLe_trans : ∀ (a b c : List Char),
    lexLe a b = true → lexLe b c = true → lexLe a c = true := by
  intro a
  induction a with
  | nil => intro b c _ _; cases c <;> rfl
  | cons x xs ih =>
    intro b c h1 h2
    cases b with
    | nil => exact absurd h1 (by simp [lexLe])
    | cons y ys =>
      cases c with
      | nil => exact absurd h2 (by simp [lexLe])
      | cons z zs =>
        rcases lexLe_cons_elim h1 with hlt1 | ⟨heq1, hr1⟩ <;>
          rcases lexLe_cons_elim h2 with hlt2 | ⟨heq2, hr2⟩
        · exact lexLe_cons_intro_lt _ _ (by omega)
        · exact lexLe_cons_intro_lt _ _ (by omega)
        · exact lexLe_cons_intro_lt _ _ (by omega)
        · exact lexLe_cons_intro_eq (by omega) (ih ys zs hr1 hr2)

theorem lexLe_total : ∀ (a b : List Char), lexLe a b = true ∨ lexLe b a = true := by
  intro a
  induction a with
  | nil => intro b; exact Or.inl (by cases b <;> rfl)
  | cons x xs ih =>
    intro b
    cases b with
    | nil => exact Or.inr rfl
    | cons y ys =>
      by_cases hxy : x.toNat < y.toNat
      · exact Or.inl (lexLe_cons_intro_lt _ _ hxy)
      · by_cases hyx : y.toNat < x.toNat
        · exact Or.inr (lexLe_cons_intro_lt _ _ hyx)
        · rcases ih ys with h | h
          · exact Or.inl (lexLe_cons_intro_eq (by omega) h)
          · exact Or.inr (lexLe_cons_intro_eq (by omega) h)

instance : IsTotal String StrLe :=
  ⟨fun a b => lexLe_total a.data b.data⟩

instance : IsTrans String StrLe :=
  ⟨fun _ _ _ h1 h2 => lexLe_trans _ _ _ h1 h2⟩

theorem extLeB_total (a b : String) : extLeB a b = true ∨ extLeB b a = true := by
  unfold extLeB
  by_cases h : hasColonB a = hasColonB b
  · rw [if_pos h, if_pos h.symm]
    exact lexLe_total a.data b.data
  · rw [if_neg h, if_neg (fun hh => h hh.symm)]
    cases ha : hasColonB a <;> cases hb : hasColonB b <;> simp_all

theorem extLeB_trans (a b c : String) (h1 : extLeB a b = true)
    (h2 : extLeB b c = true) : extLeB a c = true := by
  unfold extLeB at h1 h2 ⊢
  by_cases hab : hasColonB a = hasColonB b <;>
    by_cases hbc : hasColonB b = hasColonB c
  · rw [if_pos hab] at h1
    rw [if_pos hbc] at h2
    rw [if_pos (hab.trans hbc)]
    exact lexLe_trans _ _ _ h1 h2
  · rw [if_neg hbc] at h2
    rw [if_neg (by rw [hab]; exact hbc), hab]
    exact h2
  · rw [if_neg hab] at h1
    rw [if_neg (fun hh => hab (hh.trans hbc.symm))]
    exact h1
  · rw [if_neg hab] at h1
    rw [if_neg hbc] at h2
    cases ha : hasColonB a <;> cases hb : hasColonB b <;> simp_all

instance : IsTotal String ExtLe :=
  ⟨fun a b => extLeB_total a b⟩

instance : IsTrans String ExtLe :=
  ⟨fun a b c h1 h2 => extLeB_trans a b c h1 h2⟩

/-! ## C6: ordering of the two property views (claim corrected) -/

/-- **C6 is false on the code.**  The claim says `get_shared_props` and
`get_all_props` sort by the same rule, with colon-namespaced keys after
unprefixed keys in both, so that `"eo:cloud_cover"` comes after `"id"`
in both.  On the one-feature collection carrying both keys,
`get_shared_props` (plain `sorted`, `geojson.py` line 34) puts
`"eo:cloud_cover"` *before* `"id"`, while `get_all_props` (line 48,
key `[":" in x, x]`) puts it after: the two orders differ. -/
theorem c6_props_order_counterexample :
    get_shared_props c6fcW = ["eo:cloud_cover", "id"]
    ∧ get_all_props c6fcW = ["id", "eo:cloud_cover"]
    ∧ get_shared_props c6fcW ≠ get_all_props c6fcW :=
  ⟨by decide, by decide, by decide⟩

/-- **C6 (amended).**  Both property views are deterministically
sorted, but by different rules: `get_shared_props` is sorted plain
lexicographically (under which `"eo:cloud_cover"` precedes `"id"`),
while `get_all_props` sorts colon-namespaced extension keys after all
unprefixed keys (so there `"eo:cloud_cover"` follows `"id"`). -/
theorem c6_props_order_amended (fc : List STACFeature) :
    List.Sorted StrLe (get_shared_props fc)
    ∧ List.Sorted ExtLe (get_all_props fc)
    ∧ get_shared_props c6fcW = ["eo:cloud_cover", "id"]
    ∧ get_all_props c6fcW = ["id", "eo:cloud_cover"] :=
  ⟨List.sorted_insertionSort StrLe _, List.sorted_insertionSort ExtLe _,
   by decide, by decide⟩

/-! ## Helper lemmas: footprint field resolution -/

theorem dget_append_of_mem {d d₂ : PDict} {k : String} (hk : k ∈ dkeys d) :
    dget (d ++ d₂) k = dget d k := by
  unfold dget
  rw [List.find?_append]
  have hs := mem_dkeys_iff_isSome.mp hk
  cases hf : List.find? (fun p => decide (p.1 = k)) d with
  | none => simp [dget, hf] at hs
  | some p => rfl

theorem fillMissing_head? :
    ∀ (flds : List String) (props : PDict), props ≠ [] →
      (fillMissing flds props).head? = props.head? := by
  intro flds
  induction flds with
  | nil => intro props _; rfl
  | cons fld flds ih =>
    intro props hne
    unfold fillMissing at ih ⊢
    rw [List.foldl_cons]
    by_cases hc : (dkeys props).contains fld
    · rw [if_pos hc]
      exact ih props hne
    · rw [if_neg hc]
      have hcc : fld ∉ dkeys props := by simpa using hc
      have hnotin : ∀ p ∈ props, p.1 ≠ fld := fun p hp hpk =>
        hcc (hpk ▸ List.mem_map_of_mem Prod.fst hp)
      rw [dset_of_not_mem _ hnotin, ih _ (by simp)]
      cases props with
      | nil => exact absurd rfl hne
      | cons p ps => rfl

theorem fillMissing_dget {k : String} :
    ∀ (flds : List String) (props : PDict), k ∈ dkeys props →
      dget (fillMissing flds props) k = dget props k := by
  intro flds
  induction flds with
  | nil => intro props _; rfl
  | cons fld flds ih =>
    intro props hk
    unfold fillMissing at ih ⊢
    rw [List.foldl_cons]
    by_cases hc : (dkeys props).contains fld
    · rw [if_pos hc]
      exact ih props hk
    · rw [if_neg hc]
      have hcc : fld ∉ dkeys props := by simpa using hc
      have hnotin : ∀ p ∈ props, p.1 ≠ fld := fun p hp hpk =>
        hcc (hpk ▸ List.mem_map_of_mem Prod.fst hp)
      rw [dset_of_not_mem _ hnotin,
          ih _ (by unfold dkeys at hk ⊢; rw [List.map_append];
                   exact List.mem_append_left _ hk),
          dget_append_of_mem hk]

theorem extKeep_id (exts : List String) : extKeep exts "id" = true := by
  unfold extKeep
  rw [show hasColonB "id" = false from by decide]
  rfl

/-! ## C7: auto-id injection -/

/-- **C7.**  With auto-id enabled, `"id"` is prepended to the
tooltip/popup field list (it also survives any extension filtering, and
heads the default field lists); every feature lacking an `"id"` property
gets the record's identifier injected as its first property entry; and a
feature already carrying an `"id"` property keeps that value unchanged
through the whole footprint pipeline. -/
theorem c7_auto_id (fc : List STACFeature) (fields0 : List String)
    (extensions : Option (List String)) (shared_fields : Bool) :
    ((add_footprints fc (some fields0) Option.none shared_fields true).1
        = "id" :: fields0)
    ∧ (∀ exts, (add_footprints fc (some fields0) (some exts) shared_fields true).1
        = "id" :: fields0.filter (extKeep exts))
    ∧ ((add_footprints fc Option.none Option.none shared_fields true).1
        = "id" :: (if shared_fields then get_shared_props fc else get_all_props fc))
    ∧ (∀ i (hi : i < fc.length)
         (hi' : i < (add_footprints fc (some fields0) extensions
                       shared_fields true).2.length),
        ("id" ∉ dkeys (fc.get ⟨i, hi⟩).properties →
          ((add_footprints fc (some fields0) extensions
              shared_fields true).2.get ⟨i, hi'⟩).properties.head?
            = some ("id", idPVal (fc.get ⟨i, hi⟩)))
        ∧ ("id" ∈ dkeys (fc.get ⟨i, hi⟩).properties →
          dget ((add_footprints fc (some fields0) extensions
              shared_fields true).2.get ⟨i, hi'⟩).properties "id"
            = dget (fc.get ⟨i, hi⟩).properties "id")) := by
  refine ⟨rfl, ?_, rfl, ?_⟩
  · intro exts
    show ("id" :: fields0).filter (extKeep exts) = "id" :: fields0.filter (extKeep exts)
    rw [List.filter_cons_of_pos (extKeep_id exts)]
  · intro i hi
    cases shared_fields with
    | true =>
      intro hi'
      have hget : (add_footprints fc (some fields0) extensions true true).2.get
          ⟨i, hi'⟩ = injectId (fc.get ⟨i, hi⟩) := by
        show (fc.map injectId).get _ = _
        simp
      constructor
      · intro hmem
        rw [hget]
        unfold injectId
        rw [if_neg (by simpa using hmem)]
        rfl
      · intro hmem
        rw [hget]
        unfold injectId
        rw [if_pos (by simpa using hmem)]
    | false =>
      intro hi'
      have hget : (add_footprints fc (some fields0) extensions false true).2.get
          ⟨i, hi'⟩ =
            { injectId (fc.get ⟨i, hi⟩) with
              properties :=
                fillMissing
                  (add_footprints fc (some fields0) extensions false true).1
                  (injectId (fc.get ⟨i, hi⟩)).properties } := by
        show ((fc.map injectId).map _).get _ = _
        simp
        rfl
      constructor
      · intro hmem
        rw [hget]
        show (fillMissing _ (injectId (fc.get ⟨i, hi⟩)).properties).head? = _
        unfold injectId
        rw [if_neg (by simpa using hmem)]
        rw [fillMissing_head? _ _ (by simp)]
        rfl
      · intro hmem
        rw [hget]
        show dget (fillMissing _ (injectId (fc.get ⟨i, hi⟩)).properties) "id" = _
        unfold injectId
        rw [if_pos (by simpa using hmem)]
        exact fillMissing_dget _ _ hmem

/-- Witness for C7 on a two-feature collection: the first feature lacks
an `id` property and gains `("id", "auto-id-1")` as its first entry; the
second carries `id = "MY CUSTOM ID"` and keeps it. -/
theorem c7_auto_id_witness :
    ((add_footprints c7fcW (some ["gsd"]) Option.none false true).1
        = "id" :: ["gsd"])
    ∧ ("id" ∉ dkeys (c7fcW.get ⟨0, by decide⟩).properties
        ∧ ((add_footprints c7fcW (some ["gsd"]) Option.none false true).2.get
             ⟨0, by decide⟩).properties.head?
            = some ("id", idPVal (c7fcW.get ⟨0, by decide⟩)))
    ∧ ("id" ∈ dkeys (c7fcW.get ⟨1, by decide⟩).properties
        ∧ dget ((add_footprints c7fcW (some ["gsd"]) Option.none false true).2.get
             ⟨1, by decide⟩).properties "id"
            = dget (c7fcW.get ⟨1, by decide⟩).properties "id") :=
  ⟨(c7_auto_id c7fcW ["gsd"] Option.none false).1,
   ⟨by decide,
    ((c7_auto_id c7fcW ["gsd"] Option.none false).2.2.2 0 (by decide)
        (by decide)).1 (by decide)⟩,
   ⟨by decide,
    ((c7_auto_id c7fcW ["gsd"] Option.none false).2.2.2 1 (by decide)
        (by decide)).2 (by decide)⟩⟩

/-! ## C3: empty input fails fast -/

/-- **C3.**  If normalization yields zero records — in particular for an
empty typed item collection — `explore` fails with the
`ValueError("No STAC items were found.")` raised at lines 142-143,
before anything else happens: the caller's `highlight_kwds` dict is
returned untouched (the line-147 write was not reached) and the error
result carries no map, layers or features. -/
theorem c3_empty_input (getCmap : String → ℕ → List String)
    (stac : ItemContainer) (name : Option String) (bbox : Option (List ℚ))
    (intersects : Option PVal) (prop : Option String) (cmap : Option String)
    (vmin vmax : Option ℚ) (force_categorical : Bool)
    (fields : Option (List String)) (extensions : Option (List String))
    (shared_fields add_id legend : Bool) (hk : PDict)
    (hempty : get_items stac = []) :
    explore getCmap stac name bbox intersects prop cmap vmin vmax
        force_categorical fields extensions shared_fields add_id legend hk
      = (hk, .error (.valueError "No STAC items were found."))
    ∧ explore getCmap (.itemCollection []) name bbox intersects prop cmap vmin vmax
        force_categorical fields extensions shared_fields add_id legend hk
      = (hk, .error (.valueError "No STAC items were found.")) := by
  constructor
  · simp only [explore, hempty]
  · rfl

/-- Witness for C3 on an empty typed item collection. -/
theorem c3_empty_input_witness :
    get_items (ItemContainer.itemCollection []) = []
    ∧ (explore cmapW (.itemCollection []) Option.none Option.none Option.none
          Option.none Option.none Option.none Option.none false Option.none
          Option.none false true true []
        = ([], .error (.valueError "No STAC items were found."))
      ∧ explore cmapW (.itemCollection []) Option.none Option.none Option.none
          Option.none Option.none Option.none Option.none false Option.none
          Option.none false true true []
        = ([], .error (.valueError "No STAC items were found."))) :=
  ⟨rfl, c3_empty_input cmapW (.itemCollection []) Option.none Option.none
      Option.none Option.none Option.none Option.none Option.none false
      Option.none Option.none false true true [] rfl⟩

/-! ## C10: missing collection key while resolving the display name -/

/-- **C10.**  For every non-empty input whose first normalized record
has no `"collection"` key, calling `explore` without an explicit `name`
fails with `KeyError("collection")` at line 146, before the map is
created or any layer attached: the error result carries no map state,
and the returned `highlight_kwds` is the caller's dict unchanged (even
the line-147 write was not reached). -/
theorem c10_missing_collection_key (getCmap : String → ℕ → List String)
    (stac : ItemContainer) (bbox : Option (List ℚ)) (intersects : Option PVal)
    (prop : Option String) (cmap : Option String) (vmin vmax : Option ℚ)
    (force_categorical : Bool) (fields : Option (List String))
    (extensions : Option (List String)) (shared_fields add_id legend : Bool)
    (hk : PDict) (it0 : ItemDict) (rest : List ItemDict)
    (hitems : get_items stac = it0 :: rest)
    (hcoll : it0.collection = Option.none) :
    explore getCmap stac Option.none bbox intersects prop cmap vmin vmax
        force_categorical fields extensions shared_fields add_id legend hk
      = (hk, .error (.keyError "collection")) := by
  simp only [explore, hitems, hcoll]

/-- Witness for C10 on a one-item list whose item lacks a `collection`
key. -/
theorem c10_missing_collection_key_witness :
    get_items (ItemContainer.itemList [c10itemW]) = c10itemW :: []
    ∧ c10itemW.collection = Option.none
    ∧ explore cmapW (.itemList [c10itemW]) Option.none Option.none Option.none
        Option.none Option.none Option.none Option.none false Option.none
        Option.none false true true [("fillOpacity", PVal.str "x")]
      = ([("fillOpacity", PVal.str "x")], .error (.keyError "collection")) :=
  ⟨rfl, rfl,
   c10_missing_collection_key cmapW (.itemList [c10itemW]) Option.none
     Option.none Option.none Option.none Option.none Option.none false
     Option.none Option.none false true true [("fillOpacity", PVal.str "x")]
     c10itemW [] rfl rfl⟩

/-! ## Helper lemma: the highlight_kwds write at line 147 -/

theorem explore_fst_eq (getCmap : String → ℕ → List String)
    (stac : ItemContainer) (name : Option String) (bbox : Option (List ℚ))
    (intersects : Option PVal) (prop : Option String) (cmap : Option String)
    (vmin vmax : Option ℚ) (force_categorical : Bool)
    (fields : Option (List String)) (extensions : Option (List String))
    (shared_fields add_id legend : Bool) (hk : PDict)
    (it0 : ItemDict) (rest : List ItemDict)
    (hitems : get_items stac = it0 :: rest)
    (hname : name.isSome = true ∨ it0.collection.isSome = true) :
    (explore getCmap stac name bbox intersects prop cmap vmin vmax
        force_categorical fields extensions shared_fields add_id legend hk).1
      = dset hk "fillOpacity" (dgetD hk "fillOpacity" (.num (3 / 4))) := by
  cases name with
  | some n => simp only [explore, hitems]
  | none =>
    rcases hname with h | h
    · simp at h
    · obtain ⟨c, hc⟩ := Option.isSome_iff_exists.mp h
      simp only [explore, hitems, hc]

/-! ## C9: the caller's highlight_kwds dict is written in place -/

/-- **C9.**  For every `explore` call that reaches line 147 (non-empty
items and resolvable display name) whose `highlight_kwds` dict lacks the
key `"fillOpacity"`, the call writes `fillOpacity = 0.75` into that very
dict: the dict state returned to the caller is the original with the
pair appended, looking it up yields `0.75`, and a second call sharing
the same dict object (as calls omitting the argument share the mutable
default dict) finds the key present and leaves the dict unchanged, so
the first call's write persists across calls. -/
theorem c9_highlight_kwds_mutated (getCmap : String → ℕ → List String)
    (stac : ItemContainer) (name : Option String) (bbox : Option (List ℚ))
    (intersects : Option PVal) (prop : Option String) (cmap : Option String)
    (vmin vmax : Option ℚ) (force_categorical : Bool)
    (fields : Option (List String)) (extensions : Option (List String))
    (shared_fields add_id legend : Bool) (hk : PDict)
    (it0 : ItemDict) (rest : List ItemDict)
    (hitems : get_items stac = it0 :: rest)
    (hname : name.isSome = true ∨ it0.collection.isSome = true)
    (hmiss : dget hk "fillOpacity" = Option.none) :
    (explore getCmap stac name bbox intersects prop cmap vmin vmax
        force_categorical fields extensions shared_fields add_id legend hk).1
      = hk ++ [("fillOpacity", PVal.num (3 / 4))]
    ∧ dget (explore getCmap stac name bbox intersects prop cmap vmin vmax
        force_categorical fields extensions shared_fields add_id legend hk).1
        "fillOpacity"
      = some (PVal.num (3 / 4))
    ∧ (explore getCmap stac name bbox intersects prop cmap vmin vmax
        force_categorical fields extensions shared_fields add_id legend
        ((explore getCmap stac name bbox intersects prop cmap vmin vmax
           force_categorical fields extensions shared_fields add_id legend hk).1)).1
      = (explore getCmap stac name bbox intersects prop cmap vmin vmax
          force_categorical fields extensions shared_fields add_id legend hk).1 := by
  have hall : ∀ p ∈ hk, p.1 ≠ "fillOpacity" := dget_eq_none_iff.mp hmiss
  have h1 : (explore getCmap stac name bbox intersects prop cmap vmin vmax
      force_categorical fields extensions shared_fields add_id legend hk).1
      = hk ++ [("fillOpacity", PVal.num (3 / 4))] := by
    rw [explore_fst_eq getCmap stac name bbox intersects prop cmap vmin vmax
        force_categorical fields extensions shared_fields add_id legend hk
        it0 rest hitems hname]
    unfold dgetD
    rw [hmiss]
    exact dset_of_not_mem _ hall
  refine ⟨h1, ?_, ?_⟩
  · rw [h1]
    exact dget_append_single _ hall
  · rw [explore_fst_eq getCmap stac name bbox intersects prop cmap vmin vmax
        force_categorical fields extensions shared_fields add_id legend _
        it0 rest hitems hname, h1]
    unfold dgetD
    rw [dget_append_single _ hall]
    exact dset_append_single _ _ hall

/-- Witness for C9: one-item input with a resolvable collection name and
an initially empty `highlight_kwds` dict. -/
theorem c9_highlight_kwds_mutated_witness :
    (get_items (ItemContainer.itemList [c4itemW]) = c4itemW :: []
     ∧ ((Option.none : Option String).isSome = true
         ∨ c4itemW.collection.isSome = true)
     ∧ dget [] "fillOpacity" = Option.none)
    ∧ ((explore cmapW (.itemList [c4itemW]) Option.none Option.none Option.none
          Option.none Option.none Option.none Option.none false Option.none
          Option.none false true true []).1
        = [] ++ [("fillOpacity", PVal.num (3 / 4))]
      ∧ dget (explore cmapW (.itemList [c4itemW]) Option.none Option.none
          Option.none Option.none Option.none Option.none Option.none false
          Option.none Option.none false true true []).1 "fillOpacity"
        = some (PVal.num (3 / 4))
      ∧ (explore cmapW (.itemList [c4itemW]) Option.none Option.none Option.none
          Option.none Option.none Option.none Option.none false Option.none
          Option.none false true true
          ((explore cmapW (.itemList [c4itemW]) Option.none Option.none
             Option.none Option.none Option.none Option.none Option.none false
             Option.none Option.none false true true []).1)).1
        = (explore cmapW (.itemList [c4itemW]) Option.none Option.none
            Option.none Option.none Option.none Option.none Option.none false
            Option.none Option.none false true true []).1) :=
  ⟨⟨rfl, Or.inr rfl, rfl⟩,
   c9_highlight_kwds_mutated cmapW (.itemList [c4itemW]) Option.none
     Option.none Option.none Option.none Option.none Option.none Option.none
     false Option.none Option.none false true true [] c4itemW [] rfl
     (Or.inr rfl) rfl⟩

/-! ## C4: a color-coding property absent from every feature -/

/-- **C4 describes intended, not actual, behavior.**  The spec (and the
repository's own test `test_get_missing_value`, which expects a
`ValueError` from `get_values` on a missing property) says value
extraction fails with an `UnknownProperty` error listing the shared
properties.  The code does not: `STACFeature.get_value` returns `None`
for an absent property (`geojson.py` line 71), so extraction yields an
absent marker per feature, and `explore` instead crashes later inside
`_set_categorical_colors` with a bare `KeyError` on the property name
(`explore.py` line 406), with no message listing shared properties.
Evaluated here on a one-item collection and the test's property name. -/
theorem c4_missing_prop_behavior :
    get_values [mkFeature c4itemW] "not_a_real_prop" = [PVal.none]
    ∧ get_value (mkFeature c4itemW) "not_a_real_prop" = PVal.none
    ∧ explore cmapW (.itemCollection [c4itemW]) Option.none Option.none
        Option.none (some "not_a_real_prop") Option.none Option.none
        Option.none false Option.none Option.none false true true []
      = ([("fillOpacity", PVal.num (3 / 4))],
         .error (.keyError "not_a_real_prop")) :=
  ⟨by decide, by decide, rfl⟩

/-! ## Helper lemmas: the reference heap -/

theorem readRef_writeRef_ne (s : PyHeap) (x r : ℕ) (v : ItemDict)
    (hne : x ≠ r) : readRef (writeRef s x v) r = readRef s r := by
  unfold readRef writeRef
  rw [List.getD_eq_getElem?_getD, List.getD_eq_getElem?_getD,
      List.getElem?_set_ne hne]

theorem readRef_append (h : PyHeap) (xs : List ItemDict) (r : ℕ)
    (hr : r < h.objs.length) : readRef ⟨h.objs ++ xs⟩ r = readRef h r := by
  unfold readRef
  rw [List.getD_eq_getElem?_getD, List.getD_eq_getElem?_getD,
      List.getElem?_append_left hr]

theorem foldl_writeRef_preserves (touch : ItemDict → ItemDict) :
    ∀ (rs : List ℕ) (s : PyHeap) (r : ℕ), (∀ x ∈ rs, x ≠ r) →
      readRef (rs.foldl (fun s x => writeRef s x (touch (readRef s x))) s) r
        = readRef s r := by
  intro rs
  induction rs with
  | nil => intro s r _; rfl
  | cons x xs ih =>
    intro s r hx
    rw [List.foldl_cons,
        ih _ r (fun y hy => hx y (by simp [hy])),
        readRef_writeRef_ne s x r _ (hx x (by simp))]

/-! ## C8: the deep copy isolates caller records -/

/-- **C8.**  The caller's records are never mutated: `explore`
deep-copies them (line 141) into fresh objects and every per-record
write of the call — the reserved `__stacmap_color` annotation, the
injected `id`, the `None` field placeholders (`touch` ranges over all
of them) — goes through the fresh references only.  After the call,
every caller-owned reference reads back unchanged; in particular a
record that did not carry the reserved color key still does not. -/
theorem c8_caller_records_unchanged (h : PyHeap) (itemRefs : List ℕ)
    (touch : ItemDict → ItemDict) (r : ℕ) (hr : r < h.objs.length) :
    readRef (exploreHeap h itemRefs touch) r = readRef h r
    ∧ (dget (readRef h r).properties "__stacmap_color" = Option.none →
        dget (readRef (exploreHeap h itemRefs touch) r).properties
            "__stacmap_color" = Option.none) := by
  have key : readRef (exploreHeap h itemRefs touch) r = readRef h r := by
    unfold exploreHeap deepcopyRefs
    rw [foldl_writeRef_preserves touch _ _ r ?hne]
    · exact readRef_append h _ r hr
    case hne =>
      intro x hx
      rw [List.mem_range'] at hx
      obtain ⟨i, hi, rfl⟩ := hx
      omega
  exact ⟨key, fun hnone => key ▸ hnone⟩

/-- Witness for C8: a one-record heap, the record's reference passed to
the call, the write being the reserved-color assignment itself. -/
theorem c8_caller_records_unchanged_witness :
    (0 < (PyHeap.mk [c10itemW]).objs.length)
    ∧ (readRef (exploreHeap ⟨[c10itemW]⟩ [0] (fun it =>
          ItemDict.mk it.id it.collection
            (dset it.properties "__stacmap_color" (PVal.str "#e41a1c")))) 0
        = readRef ⟨[c10itemW]⟩ 0
      ∧ (dget (readRef ⟨[c10itemW]⟩ 0).properties "__stacmap_color"
            = Option.none →
          dget (readRef (exploreHeap ⟨[c10itemW]⟩ [0] (fun it =>
              ItemDict.mk it.id it.collection
                (dset it.properties "__stacmap_color"
                  (PVal.str "#e41a1c")))) 0).properties
              "__stacmap_color" = Option.none)) :=
  ⟨by decide,
   c8_caller_records_unchanged ⟨[c10itemW]⟩ [0]
     (fun it => ItemDict.mk it.id it.collection
        (dset it.properties "__stacmap_color" (PVal.str "#e41a1c"))) 0
     (by decide)⟩
